import Mathlib

/-!
Shallow embedding of the cache simulator (`src/main.cpp`) and verification
of its natural-language specification.

The simulator models a single-level set-associative cache: adresses are
decomposed into (tag, index), each set holds a fixed number of blocks with
valid/dirty flags and arrival/last-access timestamps, replacement is LRU or
FIFO, and write policy is write-allocate/no-write-allocate combined with
write-through/write-back.  Machine `uint32_t` values are modelled as `Nat`
with explicit reduction modulo `2 ^ 32` where the source can wrap
(the global timestamp counter); statistics counters only ever grow by small
increments and are modelled as `Nat`.
-/

namespace CacheSim

/-- Modulus of the C type `uint32_t`. -/
def U32 : Nat := 2 ^ 32

/-- Embeds `struct Block` of `src/main.cpp`. -/
structure Block where
  valid : Bool
  dirty : Bool
  tag : Nat
  arrivalTime : Nat
  lastAccessTime : Nat
deriving Repr, DecidableEq

/-- The default-constructed block (`Block()` in the source). -/
def Block.init : Block :=
  { valid := false, dirty := false, tag := 0, arrivalTime := 0, lastAccessTime := 0 }

/-- Embeds `struct CacheConfig` of `src/main.cpp`. -/
structure CacheConfig where
  numSets : Nat
  numBlocks : Nat
  blockSize : Nat
  writeAllocate : Bool
  writeThrough : Bool
  useLru : Bool
  offsetBits : Nat
  indexBits : Nat
deriving Repr, DecidableEq

/-- Derived tag width, as computed by `parseArguments`. -/
def CacheConfig.tagBits (c : CacheConfig) : Nat :=
  32 - c.offsetBits - c.indexBits

/-- Fuel-driven floor base-two logarithm (structural recursion so that proofs
can evaluate it); agrees with `(int)std::log2((double)n)` on the powers of two
accepted by `parseArguments`. -/
def ilog2Aux : Nat → Nat → Nat
  | 0, _ => 0
  | fuel + 1, n => if n < 2 then 0 else ilog2Aux fuel (n / 2) + 1

/-- Floor base-two logarithm. -/
def ilog2 (n : Nat) : Nat :=
  ilog2Aux n n

/-- Builds a configuration the way `parseArguments` does: the bit widths are
the base-two logarithms of the block size and the number of sets. -/
def mkConfig (numSets numBlocks blockSize : Nat) (wa wt lru : Bool) : CacheConfig :=
  { numSets := numSets, numBlocks := numBlocks, blockSize := blockSize,
    writeAllocate := wa, writeThrough := wt, useLru := lru,
    offsetBits := ilog2 blockSize, indexBits := ilog2 numSets }

/-- Embeds `struct Stats` of `src/main.cpp`. -/
structure Stats where
  totalLoads : Nat
  totalStores : Nat
  loadHits : Nat
  loadMisses : Nat
  storeHits : Nat
  storeMisses : Nat
  totalCycles : Nat
deriving Repr, DecidableEq

/-- The zero-initialised statistics record (`Stats()` in the source). -/
def Stats.init : Stats :=
  { totalLoads := 0, totalStores := 0, loadHits := 0, loadMisses := 0,
    storeHits := 0, storeMisses := 0, totalCycles := 0 }

/-- The whole mutable simulation state: the vector of sets, the statistics
and the global timestamp counter `globalTime`. -/
structure SimState where
  cache : List (List Block)
  stats : Stats
  globalTime : Nat
deriving Repr, DecidableEq

/-- Block of a set at a position (reads of `set.blocks[i]`; the source only
indexes in bounds, out-of-bounds reads return the default block). -/
def blkAt (s : List Block) (i : Nat) : Block :=
  s.getD i Block.init

/-- Set of the cache at an index (reads of `cache[index]`). -/
def setAt (cache : List (List Block)) (i : Nat) : List Block :=
  cache.getD i []

/-- Embeds `extractAddressParts`: returns `(tag, index)`. -/
def extractAddressParts (config : CacheConfig) (address : Nat) : Nat × Nat :=
  let addrWithoutOffset := address >>> config.offsetBits
  let indexMask := if config.indexBits = 0 then 0 else (1 <<< config.indexBits) - 1
  let index := addrWithoutOffset &&& indexMask
  let tag := addrWithoutOffset >>> config.indexBits
  (tag, index)

/-- The tag extracted from an address. -/
def tagOf (config : CacheConfig) (address : Nat) : Nat :=
  (extractAddressParts config address).1

/-- The set index extracted from an address. -/
def indexOf (config : CacheConfig) (address : Nat) : Nat :=
  (extractAddressParts config address).2

/-- Auxiliary scan of `findBlockWithTag`, carrying the position counter. -/
def findBlockWithTagAux (tag : Nat) : List Block → Nat → Option Nat
  | [], _ => none
  | b :: rest, i =>
      if b.valid && b.tag == tag then some i else findBlockWithTagAux tag rest (i + 1)

/-- Embeds `findBlockWithTag`: position of the first valid block with the
given tag (`none` plays the role of the source's `-1`). -/
def findBlockWithTag (s : List Block) (tag : Nat) : Option Nat :=
  findBlockWithTagAux tag s 0

/-- Position of the first invalid block of a set, if any
(the first loop of `findEvictionBlock`). -/
def firstInvalid : List Block → Option Nat
  | [] => none
  | b :: rest => if !b.valid then some 0 else (firstInvalid rest).map (fun i => i + 1)

/-- The replacement key of a block: `lastAccessTime` under LRU,
`arrivalTime` under FIFO. -/
def blockKey (useLru : Bool) (b : Block) : Nat :=
  if useLru then b.lastAccessTime else b.arrivalTime

/-- The second loop of `findEvictionBlock`: scans the remaining blocks,
keeping the position `vi` of the current minimum `best`
(strict `<`, so the earliest minimum is kept). -/
def scanVictim (useLru : Bool) : List Block → Nat → Nat → Nat → Nat
  | [], _, vi, _ => vi
  | b :: rest, i, vi, best =>
      if blockKey useLru b < best then scanVictim useLru rest (i + 1) i (blockKey useLru b)
      else scanVictim useLru rest (i + 1) vi best

/-- Embeds `findEvictionBlock`: first invalid position if any, otherwise the
position of the block with minimum replacement key. -/
def findEvictionBlock (s : List Block) (useLru : Bool) : Nat :=
  match firstInvalid s with
  | some i => i
  | none =>
      match s with
      | [] => 0
      | b :: rest => scanVictim useLru rest 1 0 (blockKey useLru b)

/-- Embeds `touchOnHit`: under LRU, stamps the block with the current time
and advances the clock; otherwise a no-op.  Returns the updated block and
clock. -/
def touchOnHit (blk : Block) (useLru : Bool) (globalTime : Nat) : Block × Nat :=
  if useLru then ({ blk with lastAccessTime := globalTime }, (globalTime + 1) % U32)
  else (blk, globalTime)

/-- Embeds `installBlock`: the freshly installed block and the advanced
clock. -/
def installBlock (tag : Nat) (globalTime : Nat) : Block × Nat :=
  ({ valid := true, dirty := false, tag := tag,
     arrivalTime := globalTime, lastAccessTime := globalTime },
   (globalTime + 1) % U32)

/-- Embeds `handleLoad`. -/
def handleLoad (config : CacheConfig) (address : Nat) (st : SimState) : SimState :=
  let stats0 := { st.stats with totalLoads := st.stats.totalLoads + 1 }
  let tag := tagOf config address
  let index := indexOf config address
  let set := setAt st.cache index
  match findBlockWithTag set tag with
  | some i =>
      let touched := touchOnHit (blkAt set i) config.useLru st.globalTime
      { cache := st.cache.set index (set.set i touched.1),
        stats := { stats0 with loadHits := stats0.loadHits + 1,
                               totalCycles := stats0.totalCycles + 1 },
        globalTime := touched.2 }
  | none =>
      let blocksToTransfer := config.blockSize / 4
      let victim := findEvictionBlock set config.useLru
      let vb := blkAt set victim
      let evictCost := if vb.valid && vb.dirty && !config.writeThrough
                       then 100 * blocksToTransfer else 0
      let installed := installBlock tag st.globalTime
      { cache := st.cache.set index (set.set victim installed.1),
        stats := { stats0 with loadMisses := stats0.loadMisses + 1,
                               totalCycles := stats0.totalCycles + (1 + 100 * blocksToTransfer) + evictCost },
        globalTime := installed.2 }

/-- Embeds `handleStore`. -/
def handleStore (config : CacheConfig) (address : Nat) (st : SimState) : SimState :=
  let stats0 := { st.stats with totalStores := st.stats.totalStores + 1 }
  let tag := tagOf config address
  let index := indexOf config address
  let set := setAt st.cache index
  match findBlockWithTag set tag with
  | some i =>
      let touched := touchOnHit (blkAt set i) config.useLru st.globalTime
      let blk2 := if config.writeThrough then touched.1 else { touched.1 with dirty := true }
      let extra := if config.writeThrough then 100 else 0
      { cache := st.cache.set index (set.set i blk2),
        stats := { stats0 with storeHits := stats0.storeHits + 1,
                               totalCycles := stats0.totalCycles + 1 + extra },
        globalTime := touched.2 }
  | none =>
      if config.writeAllocate then
        let blocksToTransfer := config.blockSize / 4
        let victim := findEvictionBlock set config.useLru
        let vb := blkAt set victim
        let evictCost := if vb.valid && vb.dirty && !config.writeThrough
                         then 100 * blocksToTransfer else 0
        let installed := installBlock tag st.globalTime
        let finalBlk := if config.writeThrough then { installed.1 with dirty := false }
                        else { installed.1 with dirty := true }
        let wtCost := if config.writeThrough then 100 else 0
        { cache := st.cache.set index (set.set victim finalBlk),
          stats := { stats0 with storeMisses := stats0.storeMisses + 1,
                                 totalCycles := stats0.totalCycles + (1 + 100 * blocksToTransfer)
                                                + evictCost + wtCost },
          globalTime := installed.2 }
      else
        { st with stats := { stats0 with storeMisses := stats0.storeMisses + 1,
                                         totalCycles := stats0.totalCycles + 1 + 100 } }

/-- One already-parsed trace access. -/
inductive Access where
  | load : Nat → Access
  | store : Nat → Access
deriving Repr, DecidableEq

/-- Dispatch of one access to `handleLoad` or `handleStore`. -/
def step (config : CacheConfig) (st : SimState) : Access → SimState
  | Access.load a => handleLoad config a st
  | Access.store a => handleStore config a st

/-- The initial state built at the top of `simulateCache`: `numSets` sets of
`numBlocks` default blocks, zero statistics, clock at zero. -/
def initState (config : CacheConfig) : SimState :=
  { cache := List.replicate config.numSets (List.replicate config.numBlocks Block.init),
    stats := Stats.init,
    globalTime := 0 }

/-- Runs a sequence of parsed accesses from the initial state. -/
def runAccesses (config : CacheConfig) (accs : List Access) : SimState :=
  accs.foldl (step config) (initState config)

/-! The trace-line reader of `simulateCache`.

`simulateCache` reads each line with `iss >> operation >> addressStr >> ignored`
(`istream` extraction: skip whitespace, one character / one token / one decimal
integer) and then converts the address with `std::stoul(addressStr, nullptr, 16)`;
any failure along the way makes it skip the line.  The functions below model
that character-level behaviour. -/

/-- The whitespace characters skipped by `istream` formatted extraction. -/
def isTraceWs (c : Char) : Bool :=
  c = ' ' || c = '\t' || c = '\n' || c = '\r' ||
  c = Char.ofNat 11 || c = Char.ofNat 12

/-- Skip leading whitespace. -/
def dropWs (cs : List Char) : List Char :=
  cs.dropWhile isTraceWs

/-- `iss >> operation` for a `char`: skip whitespace, read one character. -/
def extractChar (cs : List Char) : Option (Char × List Char) :=
  match dropWs cs with
  | [] => none
  | c :: rest => some (c, rest)

/-- `iss >> addressStr` for a `string`: skip whitespace, read a maximal
non-whitespace token; fails on end of input. -/
def extractToken (cs : List Char) : Option (List Char × List Char) :=
  let cs1 := dropWs cs
  let tok := cs1.takeWhile (fun c => !isTraceWs c)
  if tok.isEmpty then none else some (tok, cs1.dropWhile (fun c => !isTraceWs c))

/-- Decimal digit test. -/
def isDecDigit (c : Char) : Bool :=
  decide ('0' ≤ c) && decide (c ≤ '9')

/-- Value of a list of decimal digits. -/
def decValue (ds : List Char) : Nat :=
  ds.foldl (fun acc c => acc * 10 + (c.toNat - 48)) 0

/-- `iss >> ignored` for an `int`: skip whitespace, optional sign, at least one
decimal digit; out-of-range values set `failbit` (C++11 `num_get`).  Only
success/failure matters to the driver (the value is ignored). -/
def extractInt (cs : List Char) : Option (List Char) :=
  let cs1 := dropWs cs
  let signAndRest :=
    match cs1 with
    | '-' :: r => (true, r)
    | '+' :: r => (false, r)
    | _ => (false, cs1)
  let ds := signAndRest.2.takeWhile isDecDigit
  if ds.isEmpty then none
  else
    let v := decValue ds
    if signAndRest.1 then
      (if v ≤ 2 ^ 31 then some (signAndRest.2.dropWhile isDecDigit) else none)
    else
      (if v < 2 ^ 31 then some (signAndRest.2.dropWhile isDecDigit) else none)

/-- Value of one hexadecimal digit, `none` for a non-digit. -/
def hexDigitValue (c : Char) : Option Nat :=
  if decide ('0' ≤ c) && decide (c ≤ '9') then some (c.toNat - 48)
  else if decide ('a' ≤ c) && decide (c ≤ 'f') then some (c.toNat - 87)
  else if decide ('A' ≤ c) && decide (c ≤ 'F') then some (c.toNat - 55)
  else none

/-- Hexadecimal digit test. -/
def isHexDigitChar (c : Char) : Bool :=
  (hexDigitValue c).isSome

/-- Value of a list of hexadecimal digits. -/
def hexValue (ds : List Char) : Nat :=
  ds.foldl (fun acc c => acc * 16 + ((hexDigitValue c).getD 0)) 0

/-- Drops a leading `0x`/`0X` marker, which `strtoul` with base 16 consumes
only when a hexadecimal digit follows it. -/
def stripHexBase (cs : List Char) : List Char :=
  match cs with
  | '0' :: c2 :: rest =>
      if (c2 = 'x' || c2 = 'X') &&
         (match rest with
          | r :: _ => isHexDigitChar r
          | [] => false) then rest
      else cs
  | _ => cs

/-- `std::stoul(tok, nullptr, 16)` followed by the cast to `uint32_t`:
skip whitespace, optional sign, optional `0x` marker, at least one hex digit
(`invalid_argument` otherwise, modelled as `none`); a magnitude beyond
`unsigned long` raises `out_of_range` (`none`); a negative sign negates
modulo `2 ^ 64`; the final cast truncates modulo `2 ^ 32`. -/
def stoulHex (tok : List Char) : Option Nat :=
  let cs1 := dropWs tok
  let signAndRest :=
    match cs1 with
    | '-' :: r => (true, r)
    | '+' :: r => (false, r)
    | _ => (false, cs1)
  let body := stripHexBase signAndRest.2
  let ds := body.takeWhile isHexDigitChar
  if ds.isEmpty then none
  else
    let m := hexValue ds
    if 2 ^ 64 ≤ m then none
    else some ((if signAndRest.1 then (2 ^ 64 - m) % 2 ^ 64 else m) % 2 ^ 32)

/-- The per-line parsing of `simulateCache`: `none` exactly when the source
skips the line (empty line, extraction failure of the three fields, operation
other than `l`/`s`, or an address `stoul` rejects). -/
def parseTraceLine (cs : List Char) : Option (Char × Nat) :=
  if cs.isEmpty then none
  else
    match extractChar cs with
    | none => none
    | some opAndRest =>
        match extractToken opAndRest.2 with
        | none => none
        | some tokAndRest =>
            match extractInt tokAndRest.2 with
            | none => none
            | some _ =>
                if opAndRest.1 = 'l' ∨ opAndRest.1 = 's' then
                  match stoulHex tokAndRest.1 with
                  | none => none
                  | some addr => some (opAndRest.1, addr)
                else none

/-- The loop body of `simulateCache`: a line either changes nothing or is
dispatched to `handleLoad`/`handleStore`. -/
def processLine (config : CacheConfig) (st : SimState) (line : String) : SimState :=
  match parseTraceLine line.data with
  | none => st
  | some parsed =>
      if parsed.1 = 'l' then handleLoad config parsed.2 st
      else handleStore config parsed.2 st

/-- Embeds `simulateCache`, keeping the whole final state. -/
def runTrace (config : CacheConfig) (lines : List String) : SimState :=
  lines.foldl (processLine config) (initState config)

/-- The statistics `simulateCache` hands back to `main`. -/
def simulateCache (config : CacheConfig) (lines : List String) : Stats :=
  (runTrace config lines).stats

/-! Concrete configurations and traces used by the scenario claims. -/

/-- Configuration of the write-allocate/write-back/LRU concrete scenario:
1 set, 2 blocks per set, 4-byte blocks. -/
def cfg3 : CacheConfig := mkConfig 1 2 4 true false true

/-- The three-load trace of the concrete scenario. -/
def trace3 : List String := ["l 0x0 1", "l 0x4 1", "l 0x8 1"]

/-- The first two lines of that trace. -/
def trace3Pre : List String := ["l 0x0 1", "l 0x4 1"]

/-- 2-way LRU configuration for the LRU/FIFO divergence scenario. -/
def cfgLru : CacheConfig := mkConfig 1 2 4 true false true

/-- 2-way FIFO configuration for the LRU/FIFO divergence scenario. -/
def cfgFifo : CacheConfig := mkConfig 1 2 4 true false false

/-- Accesses A, B, A with A = 0x0, B = 0x4 (tags 0 and 1). -/
def accsABA : List Access := [Access.load 0, Access.load 4, Access.load 0]

/-- Accesses A, B, A, C with C = 0x8 (tag 2) forcing an eviction. -/
def accsABAC : List Access :=
  [Access.load 0, Access.load 4, Access.load 0, Access.load 8]

/-- The accounting invariant of the statistics record: hits and misses
partition the loads and the stores. -/
def statsAccounted (s : Stats) : Prop :=
  s.loadHits + s.loadMisses = s.totalLoads ∧
  s.storeHits + s.storeMisses = s.totalStores

/-- A set whose second block is invalid. -/
def wInvalidSet : List Block :=
  [{ valid := true, dirty := false, tag := 7, arrivalTime := 1, lastAccessTime := 1 },
   Block.init]

/-- A fully valid set whose minimum arrival time sits at position 1. -/
def wValidSet : List Block :=
  [{ valid := true, dirty := false, tag := 3, arrivalTime := 5, lastAccessTime := 5 },
   { valid := true, dirty := false, tag := 4, arrivalTime := 2, lastAccessTime := 3 }]

/-- Tags of the valid blocks of one set are pairwise distinct (out-of-range
positions read as the invalid default block, so no bounds are needed). -/
def SetUnique (s : List Block) : Prop :=
  ∀ i j, i ≠ j → (blkAt s i).valid = true → (blkAt s j).valid = true →
    (blkAt s i).tag ≠ (blkAt s j).tag

/-- Every set of the cache satisfies `SetUnique`. -/
def CacheUnique (cache : List (List Block)) : Prop :=
  ∀ k, SetUnique (setAt cache k)

/-- A 1-set, 1-block, write-allocate/write-back/LRU configuration. -/
def cfgW : CacheConfig := mkConfig 1 1 4 true false true

/-- The state after one store to address 0 under `cfgW`: its single block is
valid and dirty. -/
def stW : SimState := runAccesses cfgW [Access.store 0]

/-- A small configuration for driving the trace reader. -/
def cfg10 : CacheConfig := mkConfig 1 1 4 true true true

/-- Its initial state. -/
def st10 : SimState := initState cfg10

/-! Theorems about the embedded simulator. -/

/-- C5: for every configuration and every address, `extractAddressParts`
produces `index = (address >>> offsetBits) &&& (2 ^ indexBits - 1)` (which is
`0` when `indexBits = 0`) and `tag = (address >>> offsetBits) >>> indexBits`;
being a total function on `Nat`, it has no side effects and never fails. -/
theorem extractAddressParts_formula (config : CacheConfig) (address : Nat) :
    extractAddressParts config address =
      ((address >>> config.offsetBits) >>> config.indexBits,
       (address >>> config.offsetBits) &&& (2 ^ config.indexBits - 1)) ∧
    (config.indexBits = 0 → indexOf config address = 0) := by
  constructor
  · by_cases h : config.indexBits = 0 <;>
      simp [extractAddressParts, h, Nat.shiftLeft_eq]
  · intro h
    simp [indexOf, extractAddressParts, h]

/-- Witness for C5: the formula and the zero-index case evaluated at a
fully-associative configuration. -/
theorem extractAddressParts_formula_witness :
    extractAddressParts (mkConfig 1 2 4 true false true) 0x2b =
        ((0x2b >>> 2) >>> 0, (0x2b >>> 2) &&& (2 ^ 0 - 1)) ∧
    indexOf (mkConfig 1 2 4 true false true) 0x2b = 0 := by
  have h := extractAddressParts_formula (mkConfig 1 2 4 true false true) 0x2b
  exact ⟨h.1, h.2 (by decide)⟩

/-- C1: with no-write-allocate and write-through, a store miss adds exactly
101 cycles (independent of `blockSize`), increments `storeMisses` (and
`totalStores`), and changes neither the cache contents nor the clock. -/
theorem store_miss_no_write_allocate (config : CacheConfig) (st : SimState)
    (address : Nat)
    (hwa : config.writeAllocate = false) (_hwt : config.writeThrough = true)
    (hmiss : findBlockWithTag (setAt st.cache (indexOf config address))
              (tagOf config address) = none) :
    handleStore config address st =
      { st with stats := { st.stats with
          totalStores := st.stats.totalStores + 1
          storeMisses := st.stats.storeMisses + 1
          totalCycles := st.stats.totalCycles + 101 } } := by
  simp only [handleStore, hmiss, hwa]
  simp [Nat.add_assoc]

/-- Witness for C1: a store to the all-invalid one-block cache. -/
theorem store_miss_no_write_allocate_witness :
    handleStore (mkConfig 1 1 4 false true true) 0
        (initState (mkConfig 1 1 4 false true true)) =
      { initState (mkConfig 1 1 4 false true true) with stats := {
          (initState (mkConfig 1 1 4 false true true)).stats with
          totalStores := (initState (mkConfig 1 1 4 false true true)).stats.totalStores + 1
          storeMisses := (initState (mkConfig 1 1 4 false true true)).stats.storeMisses + 1
          totalCycles := (initState (mkConfig 1 1 4 false true true)).stats.totalCycles + 101 } } :=
  store_miss_no_write_allocate (mkConfig 1 1 4 false true true)
    (initState (mkConfig 1 1 4 false true true)) 0 (by decide) (by decide) (by decide)

/-- C3, counterexample: on the trace load 0x0, load 0x4, load 0x8 with
numSets = 1, numBlocks = 2, blockSize = 4, write-allocate, write-back, LRU,
the simulator's final cycle count is not 203 (each of the three cold misses
costs 1 + 100 cycles, totalling 303). -/
theorem scenario_cycles_ne_203 :
    (simulateCache cfg3 trace3).totalCycles ≠ 203 := by decide

/-- C3, amended: the same run costs exactly 303 cycles (three cold misses at
1 + 100 cycles each); the third load evicts the block of 0x0 — block 0 holds
the tag of 0x0 after the first two loads and the tag of 0x8 after the third —
and no block was ever dirty, so no write-back cost is incurred. -/
theorem scenario_wawb_lru_run :
    (simulateCache cfg3 trace3).totalCycles = 303 ∧
    (simulateCache cfg3 trace3).loadMisses = 3 ∧
    (blkAt (setAt (runTrace cfg3 trace3Pre).cache 0) 0).tag = tagOf cfg3 0x0 ∧
    (blkAt (setAt (runTrace cfg3 trace3).cache 0) 0).tag = tagOf cfg3 0x8 ∧
    (blkAt (setAt (runTrace cfg3 trace3).cache 0) 1).tag = tagOf cfg3 0x4 ∧
    (blkAt (setAt (runTrace cfg3 trace3Pre).cache 0) 0).dirty = false ∧
    (blkAt (setAt (runTrace cfg3 trace3Pre).cache 0) 1).dirty = false := by
  decide

theorem handleLoad_statsAccounted (config : CacheConfig) (address : Nat)
    (st : SimState) (h : statsAccounted st.stats) :
    statsAccounted (handleLoad config address st).stats := by
  rcases h with ⟨h1, h2⟩
  cases e : findBlockWithTag (setAt st.cache (indexOf config address))
      (tagOf config address) <;>
    simp [handleLoad, e, statsAccounted] <;> omega

theorem handleStore_statsAccounted (config : CacheConfig) (address : Nat)
    (st : SimState) (h : statsAccounted st.stats) :
    statsAccounted (handleStore config address st).stats := by
  rcases h with ⟨h1, h2⟩
  cases e : findBlockWithTag (setAt st.cache (indexOf config address))
      (tagOf config address)
  · by_cases hwa : config.writeAllocate <;>
      simp [handleStore, e, hwa, statsAccounted] <;> omega
  · simp [handleStore, e, statsAccounted]
    omega

theorem foldl_step_statsAccounted (config : CacheConfig) (accs : List Access)
    (st : SimState) (h : statsAccounted st.stats) :
    statsAccounted (accs.foldl (step config) st).stats := by
  induction accs generalizing st with
  | nil => exact h
  | cons a rest ih =>
      cases a with
      | load addr =>
          exact ih (handleLoad config addr st) (handleLoad_statsAccounted config addr st h)
      | store addr =>
          exact ih (handleStore config addr st) (handleStore_statsAccounted config addr st h)

/-- C4: in every state reachable from the initial state by any sequence of
load and store accesses, `loadHits + loadMisses = totalLoads` and
`storeHits + storeMisses = totalStores`. -/
theorem stats_partition (config : CacheConfig) (accs : List Access) :
    (runAccesses config accs).stats.loadHits + (runAccesses config accs).stats.loadMisses
        = (runAccesses config accs).stats.totalLoads ∧
    (runAccesses config accs).stats.storeHits + (runAccesses config accs).stats.storeMisses
        = (runAccesses config accs).stats.totalStores :=
  foldl_step_statsAccounted config accs (initState config) (by constructor <;> rfl)

theorem firstInvalid_some (s : List Block) (i : Nat)
    (h : firstInvalid s = some i) :
    i < s.length ∧ (blkAt s i).valid = false ∧
      ∀ m, m < i → (blkAt s m).valid = true := by
  induction s generalizing i with
  | nil => simp [firstInvalid] at h
  | cons b rest ih =>
      by_cases hv : b.valid
      · simp only [firstInvalid, hv, Bool.not_true, if_neg Bool.false_ne_true] at h
        rcases Option.map_eq_some'.mp h with ⟨j, hj, hij⟩
        rcases ih j hj with ⟨h1, h2, h3⟩
        subst hij
        refine ⟨by simpa using h1, by simpa [blkAt] using h2, ?_⟩
        intro m hm
        cases m with
        | zero => simpa [blkAt] using hv
        | succ m => simpa [blkAt] using h3 m (by omega)
      · simp only [firstInvalid, hv, Bool.not_false, if_pos] at h
        obtain rfl := Option.some.inj h
        exact ⟨by simp, by simpa [blkAt] using hv,
          fun m hm => absurd hm (Nat.not_lt_zero m)⟩

theorem firstInvalid_none (s : List Block)
    (h : firstInvalid s = none) :
    ∀ m, m < s.length → (blkAt s m).valid = true := by
  induction s with
  | nil => intro m hm; simp at hm
  | cons b rest ih =>
      by_cases hv : b.valid
      · simp only [firstInvalid, hv, Bool.not_true, if_neg Bool.false_ne_true,
          Option.map_eq_none'] at h
        intro m hm
        cases m with
        | zero => simpa [blkAt] using hv
        | succ m => simpa [blkAt] using ih h m (by simpa using hm)
      · simp [firstInvalid, hv] at h

theorem scanVictim_spec (u : Bool) (l : List Block) :
    ∀ (i vi best : Nat),
      (scanVictim u l i vi best = vi ∧
        ∀ m, m < l.length → best ≤ blockKey u (blkAt l m)) ∨
      (∃ k, k < l.length ∧ scanVictim u l i vi best = i + k ∧
        blockKey u (blkAt l k) < best ∧
        (∀ m, m < k → blockKey u (blkAt l k) < blockKey u (blkAt l m)) ∧
        (∀ m, m < l.length → blockKey u (blkAt l k) ≤ blockKey u (blkAt l m))) := by
  induction l with
  | nil =>
      intro i vi best
      left
      exact ⟨rfl, fun m hm => absurd hm (by simp)⟩
  | cons b rest ih =>
      intro i vi best
      by_cases hb : blockKey u b < best
      · rcases ih (i + 1) i (blockKey u b) with ⟨h1, h2⟩ | ⟨k, hk, h1, h2, h3, h4⟩
        · right
          refine ⟨0, by simp, ?_, ?_, fun m hm => absurd hm (Nat.not_lt_zero m), ?_⟩
          · simpa [scanVictim, hb] using h1
          · simpa [blkAt] using hb
          · intro m hm
            cases m with
            | zero => simp [blkAt]
            | succ m => simpa [blkAt] using h2 m (by simpa using hm)
        · right
          refine ⟨k + 1, by simpa using hk, ?_, ?_, ?_, ?_⟩
          · rw [show i + (k + 1) = (i + 1) + k by omega]
            simpa [scanVictim, hb] using h1
          · simp only [blkAt, List.getD_cons_succ]
            exact Nat.lt_trans h2 hb
          · intro m hm
            cases m with
            | zero => simpa [blkAt] using h2
            | succ m => simpa [blkAt] using h3 m (by omega)
          · intro m hm
            cases m with
            | zero => simpa [blkAt] using Nat.le_of_lt h2
            | succ m => simpa [blkAt] using h4 m (by simpa using hm)
      · have hb' : best ≤ blockKey u b := Nat.le_of_not_lt hb
        rcases ih (i + 1) vi best with ⟨h1, h2⟩ | ⟨k, hk, h1, h2, h3, h4⟩
        · left
          refine ⟨by simpa [scanVictim, hb] using h1, ?_⟩
          intro m hm
          cases m with
          | zero => simpa [blkAt] using hb'
          | succ m => simpa [blkAt] using h2 m (by simpa using hm)
        · right
          refine ⟨k + 1, by simpa using hk, ?_, ?_, ?_, ?_⟩
          · rw [show i + (k + 1) = (i + 1) + k by omega]
            simpa [scanVictim, hb] using h1
          · simpa [blkAt] using h2
          · intro m hm
            cases m with
            | zero => simpa [blkAt] using Nat.lt_of_lt_of_le h2 hb'
            | succ m => simpa [blkAt] using h3 m (by omega)
          · intro m hm
            cases m with
            | zero => simpa [blkAt] using Nat.le_of_lt (Nat.lt_of_lt_of_le h2 hb')
            | succ m => simpa [blkAt] using h4 m (by simpa using hm)

/-- C2: on a nonempty set, `findEvictionBlock` returns a position in range;
if some block is invalid it returns the first invalid position (every earlier
block is valid); if all blocks are valid it returns the position whose
replacement key (`lastAccessTime` under LRU, `arrivalTime` under FIFO) is
minimal, ties broken by the lowest position (every earlier block has a
strictly larger key). -/
theorem findEvictionBlock_spec (s : List Block) (u : Bool) (hne : s ≠ []) :
    findEvictionBlock s u < s.length ∧
    ((∃ j, j < s.length ∧ (blkAt s j).valid = false) →
      ((blkAt s (findEvictionBlock s u)).valid = false ∧
       ∀ m, m < findEvictionBlock s u → (blkAt s m).valid = true)) ∧
    ((∀ j, j < s.length → (blkAt s j).valid = true) →
      ((∀ j, j < s.length →
          blockKey u (blkAt s (findEvictionBlock s u)) ≤ blockKey u (blkAt s j)) ∧
       (∀ j, j < findEvictionBlock s u →
          blockKey u (blkAt s (findEvictionBlock s u)) < blockKey u (blkAt s j)))) := by
  cases e : firstInvalid s with
  | some i =>
      have hfe : findEvictionBlock s u = i := by simp [findEvictionBlock, e]
      rcases firstInvalid_some s i e with ⟨h1, h2, h3⟩
      rw [hfe]
      refine ⟨h1, fun _ => ⟨h2, h3⟩, fun hall => absurd (hall i h1) (by simp [h2])⟩
  | none =>
      have hval := firstInvalid_none s e
      cases s with
      | nil => exact absurd rfl hne
      | cons b rest =>
          have hfe : findEvictionBlock (b :: rest) u
              = scanVictim u rest 1 0 (blockKey u b) := by
            simp [findEvictionBlock, e]
          have hnoinv : ¬ ∃ j, j < (b :: rest).length ∧
              (blkAt (b :: rest) j).valid = false := by
            rintro ⟨j, hj, hfalse⟩
            rw [hval j hj] at hfalse
            simp at hfalse
          rcases scanVictim_spec u rest 1 0 (blockKey u b)
            with ⟨h1, h2⟩ | ⟨k, hk, h1, h2, h3, h4⟩
          · rw [hfe, h1]
            refine ⟨by simp, fun hx => absurd hx hnoinv, fun _ => ⟨?_, by omega⟩⟩
            intro j hj
            cases j with
            | zero => simp [blkAt]
            | succ j => simpa [blkAt] using h2 j (by simpa using hj)
          · have h1' : findEvictionBlock (b :: rest) u = k + 1 := by
              rw [hfe, h1]; omega
            rw [h1']
            refine ⟨by simp; omega, fun hx => absurd hx hnoinv, fun _ => ⟨?_, ?_⟩⟩
            · intro j hj
              cases j with
              | zero => simpa [blkAt] using Nat.le_of_lt h2
              | succ j => simpa [blkAt] using h4 j (by simpa using hj)
            · intro j hj
              cases j with
              | zero => simpa [blkAt] using h2
              | succ j => simpa [blkAt] using h3 j (by omega)

/-- Witness for C2: the invalid-block case and the all-valid FIFO case,
evaluated on concrete two-block sets. -/
theorem findEvictionBlock_spec_witness :
    (blkAt wInvalidSet (findEvictionBlock wInvalidSet true)).valid = false ∧
    blockKey false (blkAt wValidSet (findEvictionBlock wValidSet false)) ≤
      blockKey false (blkAt wValidSet 0) :=
  ⟨((findEvictionBlock_spec wInvalidSet true (by decide)).2.1
      ⟨1, by decide, by decide⟩).1,
   ((findEvictionBlock_spec wValidSet false (by decide)).2.2
      (by decide)).1 0 (by decide)⟩

/-- C8: after accesses A, B, A (A = 0x0, B = 0x4) fill a 2-way set, the
eviction forced by C = 0x8 selects block 1 (holding B, least recently used)
under LRU but block 0 (holding A, oldest arrival) under FIFO; accordingly the
final LRU cache holds A and C while the final FIFO cache holds C and B. -/
theorem lru_fifo_divergence :
    findEvictionBlock (setAt (runAccesses cfgLru accsABA).cache 0) true = 1 ∧
    findEvictionBlock (setAt (runAccesses cfgFifo accsABA).cache 0) false = 0 ∧
    (blkAt (setAt (runAccesses cfgLru accsABAC).cache 0) 0).tag = tagOf cfgLru 0x0 ∧
    (blkAt (setAt (runAccesses cfgLru accsABAC).cache 0) 1).tag = tagOf cfgLru 0x8 ∧
    (blkAt (setAt (runAccesses cfgFifo accsABAC).cache 0) 0).tag = tagOf cfgFifo 0x8 ∧
    (blkAt (setAt (runAccesses cfgFifo accsABAC).cache 0) 1).tag = tagOf cfgFifo 0x4 := by
  decide

theorem testBit_high_false (x n j : Nat) (hx : x < 2 ^ n) (hj : n ≤ j) :
    x.testBit j = false :=
  Nat.testBit_lt_two_pow
    (Nat.lt_of_lt_of_le hx (Nat.pow_le_pow_right (by omega) hj))

theorem or3_shiftRight (t idx off o i : Nat) (hoff : off < 2 ^ o) :
    ((t <<< (i + o)) ||| (idx <<< o) ||| off) >>> o = (t <<< i) ||| idx := by
  apply Nat.eq_of_testBit_eq
  intro j
  have h1 : off.testBit (o + j) = false := testBit_high_false off o (o + j) hoff (by omega)
  have h2 : o + j - (i + o) = j - i := by omega
  have h3 : o + j - o = j := by omega
  have h4 : (i + o ≤ o + j) = (i ≤ j) := by
    apply propext; constructor <;> intro <;> omega
  simp [Nat.testBit_shiftRight, Nat.testBit_or, Nat.testBit_shiftLeft,
    h1, h2, h3, h4, ge_iff_le]

theorem or_low_land (t idx i : Nat) (hidx : idx < 2 ^ i) :
    ((t <<< i) ||| idx) &&& (2 ^ i - 1) = idx := by
  apply Nat.eq_of_testBit_eq
  intro j
  by_cases hj : j < i
  · simp [Nat.testBit_and, Nat.testBit_or, Nat.testBit_shiftLeft,
      Nat.testBit_two_pow_sub_one, hj, Nat.not_le.mpr hj, ge_iff_le]
  · have hfalse : idx.testBit j = false :=
      testBit_high_false idx i j hidx (Nat.le_of_not_lt hj)
    simp [Nat.testBit_and, Nat.testBit_or, Nat.testBit_shiftLeft,
      Nat.testBit_two_pow_sub_one, hj, hfalse]

theorem or_low_shiftRight (t idx i : Nat) (hidx : idx < 2 ^ i) :
    ((t <<< i) ||| idx) >>> i = t := by
  apply Nat.eq_of_testBit_eq
  intro j
  have hfalse : idx.testBit (i + j) = false :=
    testBit_high_false idx i (i + j) hidx (by omega)
  have h3 : i + j - i = j := by omega
  simp [Nat.testBit_shiftRight, Nat.testBit_or, Nat.testBit_shiftLeft,
    hfalse, h3, ge_iff_le]

/-- C6: reconstructing an address as
`(tag <<< (indexBits + offsetBits)) ||| (index <<< offsetBits) ||| offset`
from a tag and index of the appropriate widths and any offset below the block
size, and decoding it again, yields the same tag and index. -/
theorem address_roundtrip (config : CacheConfig) (tag index offset : Nat)
    (hbs : config.blockSize = 2 ^ config.offsetBits)
    (_htag : tag < 2 ^ config.tagBits)
    (hidx : index < 2 ^ config.indexBits)
    (hoff : offset < config.blockSize) :
    extractAddressParts config
        ((tag <<< (config.indexBits + config.offsetBits)) |||
         (index <<< config.offsetBits) ||| offset) = (tag, index) := by
  have hoff2 : offset < 2 ^ config.offsetBits := by rw [← hbs]; exact hoff
  have hsr := or3_shiftRight tag index offset config.offsetBits config.indexBits hoff2
  by_cases hzero : config.indexBits = 0
  · have hidx0 : index = 0 := by
      rw [hzero] at hidx
      omega
    subst hidx0
    rw [hzero] at hsr
    simp only [extractAddressParts, hzero, if_pos, Prod.mk.injEq]
    refine ⟨?_, by simp⟩
    rw [hsr]
    simp
  · simp only [extractAddressParts, hzero, if_neg, ite_false, Prod.mk.injEq]
    rw [hsr]
    have hmask : (1 <<< config.indexBits) - 1 = 2 ^ config.indexBits - 1 := by
      simp [Nat.shiftLeft_eq]
    constructor
    · exact or_low_shiftRight tag index config.indexBits hidx
    · rw [hmask]
      exact or_low_land tag index config.indexBits hidx

/-- Witness for C6: a round trip through a 4-set, 16-byte-block geometry. -/
theorem address_roundtrip_witness :
    extractAddressParts (mkConfig 4 1 16 true true true)
        ((0x1ab <<< (2 + 4)) ||| (3 <<< 4) ||| 9) = (0x1ab, 3) :=
  address_roundtrip (mkConfig 4 1 16 true true true) 0x1ab 3 9
    (by decide) (by decide) (by decide) (by decide)

/-- A generic description of `getD` after `set`: the written value when the
position matches and the write is in range, the old value otherwise. -/
theorem getD_set {α : Type} (l : List α) (i j : Nat) (a d : α) :
    (l.set i a).getD j d = if j = i ∧ i < l.length then a else l.getD j d := by
  by_cases hj : j = i
  · subst hj
    by_cases hi : j < l.length
    · simp [List.getElem?_set_self hi, hi]
    · have hlen : l.length ≤ j := Nat.le_of_not_lt hi
      simp [hi, List.getElem?_eq_none (show (l.set j a).length ≤ j by simpa using hlen),
        List.getElem?_eq_none hlen]
  · simp [List.getElem?_set_ne (fun h => hj h.symm), hj]

theorem findBlockWithTagAux_some (t : Nat) (l : List Block) :
    ∀ n i, findBlockWithTagAux t l n = some i →
      n ≤ i ∧ i - n < l.length ∧ (blkAt l (i - n)).valid = true ∧
        (blkAt l (i - n)).tag = t := by
  induction l with
  | nil => intro n i h; simp [findBlockWithTagAux] at h
  | cons b rest ih =>
      intro n i h
      by_cases hc : b.valid && b.tag == t
      · simp only [findBlockWithTagAux, hc, if_pos] at h
        obtain rfl := Option.some.inj h
        have hvt : b.valid = true ∧ b.tag = t := by
          simpa using hc
        refine ⟨Nat.le_refl n, by simp, ?_, ?_⟩ <;>
          simp [Nat.sub_self, blkAt, hvt.1, hvt.2]
      · simp only [findBlockWithTagAux, hc, if_neg Bool.false_ne_true,
          Bool.not_eq_true] at h
        rcases ih (n + 1) i h with ⟨h1, h2, h3, h4⟩
        have hin : i - n = (i - (n + 1)) + 1 := by omega
        rw [hin]
        refine ⟨by omega, by simp; omega, ?_, ?_⟩
        · simpa [blkAt] using h3
        · simpa [blkAt] using h4

theorem findBlockWithTag_some (s : List Block) (t : Nat) (i : Nat)
    (h : findBlockWithTag s t = some i) :
    i < s.length ∧ (blkAt s i).valid = true ∧ (blkAt s i).tag = t := by
  rcases findBlockWithTagAux_some t s 0 i h with ⟨_, h2, h3, h4⟩
  simpa using ⟨h2, h3, h4⟩

/-- C7: under write-back, (1) a store hit adds exactly one cycle and marks
the hit block dirty; (2) a load miss, or a write-allocate store miss, whose
victim block is valid and dirty adds the write-back transfer cost
`100 * (blockSize / 4)` on top of the miss fetch cost `1 + 100 * (blockSize / 4)`. -/
theorem writeback_dirty_tracking (config : CacheConfig) (st : SimState)
    (address : Nat) (hwb : config.writeThrough = false) :
    (∀ i, findBlockWithTag (setAt st.cache (indexOf config address))
        (tagOf config address) = some i →
      ((handleStore config address st).stats.totalCycles
          = st.stats.totalCycles + 1 ∧
       (blkAt (setAt (handleStore config address st).cache
          (indexOf config address)) i).dirty = true)) ∧
    (findBlockWithTag (setAt st.cache (indexOf config address))
        (tagOf config address) = none →
      (blkAt (setAt st.cache (indexOf config address))
        (findEvictionBlock (setAt st.cache (indexOf config address))
          config.useLru)).valid = true →
      (blkAt (setAt st.cache (indexOf config address))
        (findEvictionBlock (setAt st.cache (indexOf config address))
          config.useLru)).dirty = true →
      ((handleLoad config address st).stats.totalCycles
          = st.stats.totalCycles + (1 + 100 * (config.blockSize / 4))
            + 100 * (config.blockSize / 4) ∧
       (config.writeAllocate = true →
        (handleStore config address st).stats.totalCycles
          = st.stats.totalCycles + (1 + 100 * (config.blockSize / 4))
            + 100 * (config.blockSize / 4)))) := by
  constructor
  · intro i he
    have hsome := findBlockWithTag_some _ _ _ he
    have hidxlen : indexOf config address < st.cache.length := by
      by_contra hge
      have : setAt st.cache (indexOf config address) = [] := by
        simp [setAt, List.getD, List.getElem?_eq_none (Nat.le_of_not_lt hge)]
      rw [this] at hsome
      simp at hsome
    constructor
    · simp [handleStore, he, hwb]
    · simp only [handleStore, he, hwb, Bool.false_eq_true, if_neg]
      simp only [setAt, blkAt, List.getD_eq_getElem?_getD] at hsome ⊢
      rw [List.getElem?_set_self (by simpa using hidxlen)]
      simp only [Option.getD_some]
      rw [List.getElem?_set_self (by simpa using hsome.1)]
      simp
  · intro he hv hd
    have hcost : (handleLoad config address st).stats.totalCycles
        = st.stats.totalCycles + (1 + 100 * (config.blockSize / 4))
          + 100 * (config.blockSize / 4) := by
      simp [handleLoad, he, hv, hd, hwb]
    refine ⟨hcost, fun hwa => ?_⟩
    simp [handleStore, he, hv, hd, hwb, hwa]

/-- Witness for C7: under the 1-set 1-block write-back configuration, after
one store to address 0 the block is valid and dirty; a second store to 0 is
the one-cycle dirty hit, and an access to address 4 is the miss that pays the
write-back cost. -/
theorem writeback_dirty_tracking_witness :
    ((handleStore cfgW 0 stW).stats.totalCycles = stW.stats.totalCycles + 1 ∧
     (blkAt (setAt (handleStore cfgW 0 stW).cache (indexOf cfgW 0)) 0).dirty = true) ∧
    ((handleLoad cfgW 4 stW).stats.totalCycles
        = stW.stats.totalCycles + (1 + 100 * (cfgW.blockSize / 4))
          + 100 * (cfgW.blockSize / 4) ∧
     (handleStore cfgW 4 stW).stats.totalCycles
        = stW.stats.totalCycles + (1 + 100 * (cfgW.blockSize / 4))
          + 100 * (cfgW.blockSize / 4)) :=
  ⟨(writeback_dirty_tracking cfgW stW 0 (by decide)).1 0 (by decide),
   ((writeback_dirty_tracking cfgW stW 4 (by decide)).2
      (by decide) (by decide) (by decide)).1,
   ((writeback_dirty_tracking cfgW stW 4 (by decide)).2
      (by decide) (by decide) (by decide)).2 (by decide)⟩

theorem blkAt_set (s : List Block) (i j : Nat) (b : Block) :
    blkAt (s.set i b) j = if j = i ∧ i < s.length then b else blkAt s j :=
  getD_set s i j b Block.init

theorem setAt_set (cache : List (List Block)) (i j : Nat) (s' : List Block) :
    setAt (cache.set i s') j
      = if j = i ∧ i < cache.length then s' else setAt cache j :=
  getD_set cache i j s' []

theorem blkAt_of_len_le (s : List Block) (j : Nat) (h : s.length ≤ j) :
    blkAt s j = Block.init := by
  simp [blkAt, List.getD_eq_getElem?_getD, List.getElem?_eq_none h]

theorem findBlockWithTagAux_none (t : Nat) (l : List Block) :
    ∀ n, findBlockWithTagAux t l n = none →
      ∀ j, j < l.length → (blkAt l j).valid = true → (blkAt l j).tag ≠ t := by
  induction l with
  | nil => intro n _ j hj; simp at hj
  | cons b rest ih =>
      intro n h j hj hv
      by_cases hc : b.valid && b.tag == t
      · simp [findBlockWithTagAux, hc] at h
      · simp only [findBlockWithTagAux, hc, if_neg Bool.false_ne_true,
          Bool.not_eq_true] at h
        cases j with
        | zero =>
            simp only [blkAt, List.getD_eq_getElem?_getD, List.getElem?_cons_zero,
              Option.getD_some] at hv ⊢
            intro hbt
            rw [hv, hbt] at hc
            simp at hc
        | succ j =>
            simpa [blkAt] using ih (n + 1) h j (by simpa using hj)
              (by simpa [blkAt] using hv)

/-- From a failed lookup: no valid block of the set carries the tag
(positions past the end read as the invalid default block). -/
theorem findBlockWithTag_none (s : List Block) (t : Nat)
    (h : findBlockWithTag s t = none) :
    ∀ j, (blkAt s j).valid = true → (blkAt s j).tag ≠ t := by
  intro j hv
  by_cases hj : j < s.length
  · exact findBlockWithTagAux_none t s 0 h j hj hv
  · rw [blkAt_of_len_le s j (Nat.le_of_not_lt hj)] at hv
    simp [Block.init] at hv

theorem SetUnique_set_same_profile (s : List Block) (i : Nat) (b : Block)
    (hu : SetUnique s) (hv : b.valid = (blkAt s i).valid)
    (ht : b.tag = (blkAt s i).tag) :
    SetUnique (s.set i b) := by
  intro p q hpq hvp hvq
  rw [blkAt_set] at hvp hvq
  rw [blkAt_set, blkAt_set]
  by_cases hp : p = i ∧ i < s.length <;> by_cases hq : q = i ∧ i < s.length
  · exact absurd (hp.1.trans hq.1.symm) hpq
  · rw [if_pos hp] at hvp
    rw [if_neg hq] at hvq
    rw [if_pos hp, if_neg hq, ht]
    rw [hv] at hvp
    exact hu i q (hp.1 ▸ hpq) hvp hvq
  · rw [if_neg hp] at hvp
    rw [if_pos hq] at hvq
    rw [if_neg hp, if_pos hq, ht]
    rw [hv] at hvq
    exact hu p i (hq.1 ▸ hpq) hvp hvq
  · rw [if_neg hp] at hvp
    rw [if_neg hq] at hvq
    rw [if_neg hp, if_neg hq]
    exact hu p q hpq hvp hvq

theorem SetUnique_install (s : List Block) (v : Nat) (t : Nat) (b : Block)
    (hu : SetUnique s) (hbt : b.tag = t)
    (hnone : ∀ j, (blkAt s j).valid = true → (blkAt s j).tag ≠ t) :
    SetUnique (s.set v b) := by
  intro p q hpq hvp hvq
  rw [blkAt_set] at hvp hvq
  rw [blkAt_set, blkAt_set]
  by_cases hp : p = v ∧ v < s.length <;> by_cases hq : q = v ∧ v < s.length
  · exact absurd (hp.1.trans hq.1.symm) hpq
  · rw [if_neg hq] at hvq
    rw [if_pos hp, if_neg hq, hbt]
    exact fun hqt => hnone q hvq hqt.symm
  · rw [if_neg hp] at hvp
    rw [if_neg hp, if_pos hq, hbt]
    exact hnone p hvp
  · rw [if_neg hp] at hvp
    rw [if_neg hq] at hvq
    rw [if_neg hp, if_neg hq]
    exact hu p q hpq hvp hvq

theorem handleLoad_unique (config : CacheConfig) (address : Nat) (st : SimState)
    (hu : CacheUnique st.cache) : CacheUnique (handleLoad config address st).cache := by
  cases e : findBlockWithTag (setAt st.cache (indexOf config address))
      (tagOf config address) with
  | some i =>
      intro k
      simp only [handleLoad, e]
      rw [setAt_set]
      by_cases hk : k = indexOf config address ∧ indexOf config address < st.cache.length
      · rw [if_pos hk]
        refine SetUnique_set_same_profile _ _ _ (hk.1 ▸ hu k) ?_ ?_ <;>
          cases hl : config.useLru <;> simp [touchOnHit, hl]
      · rw [if_neg hk]
        exact hu k
  | none =>
      intro k
      simp only [handleLoad, e]
      rw [setAt_set]
      by_cases hk : k = indexOf config address ∧ indexOf config address < st.cache.length
      · rw [if_pos hk]
        exact SetUnique_install _ _ _ _ (hk.1 ▸ hu k) rfl
          (findBlockWithTag_none _ _ e)
      · rw [if_neg hk]
        exact hu k

theorem handleStore_unique (config : CacheConfig) (address : Nat) (st : SimState)
    (hu : CacheUnique st.cache) : CacheUnique (handleStore config address st).cache := by
  cases e : findBlockWithTag (setAt st.cache (indexOf config address))
      (tagOf config address) with
  | some i =>
      intro k
      simp only [handleStore, e]
      rw [setAt_set]
      by_cases hk : k = indexOf config address ∧ indexOf config address < st.cache.length
      · rw [if_pos hk]
        refine SetUnique_set_same_profile _ _ _ (hk.1 ▸ hu k) ?_ ?_ <;>
          cases hl : config.useLru <;> cases hw : config.writeThrough <;>
            simp [touchOnHit, hl, hw]
      · rw [if_neg hk]
        exact hu k
  | none =>
      by_cases hwa : config.writeAllocate
      · intro k
        simp only [handleStore, e, hwa, ite_true]
        rw [setAt_set]
        by_cases hk : k = indexOf config address ∧ indexOf config address < st.cache.length
        · rw [if_pos hk]
          refine SetUnique_install _ _ _ _ (hk.1 ▸ hu k) ?_
            (findBlockWithTag_none _ _ e)
          cases hw : config.writeThrough <;> simp [hw, installBlock]
        · rw [if_neg hk]
          exact hu k
      · intro k
        simp only [handleStore, e, hwa, ite_false]
        exact hu k

theorem runAccesses_unique_aux (config : CacheConfig) (accs : List Access)
    (st : SimState) (hu : CacheUnique st.cache) :
    CacheUnique (accs.foldl (step config) st).cache := by
  induction accs generalizing st with
  | nil => exact hu
  | cons a rest ih =>
      cases a with
      | load addr => exact ih _ (handleLoad_unique config addr st hu)
      | store addr => exact ih _ (handleStore_unique config addr st hu)

theorem initState_unique (config : CacheConfig) :
    CacheUnique (initState config).cache := by
  intro k p q _ hvp
  have hrep : ∀ j, (blkAt (setAt (initState config).cache k) j).valid = false := by
    intro j
    simp only [initState, setAt, List.getD_eq_getElem?_getD, List.getElem?_replicate]
    by_cases hk : k < config.numSets
    · simp only [hk, ite_true, Option.getD_some, blkAt, List.getD_eq_getElem?_getD,
        List.getElem?_replicate]
      by_cases hj : j < config.numBlocks
      · simp [hj, Block.init]
      · simp [hj, Block.init]
    · simp [hk, blkAt, Block.init]
  rw [hrep p] at hvp
  simp at hvp

/-- C9: in every reachable cache state, two distinct positions of the same
set that both hold valid blocks hold distinct tags, so the first match
returned by `findBlockWithTag` is the only match. -/
theorem tag_uniqueness (config : CacheConfig) (accs : List Access) (k i j : Nat)
    (hij : i ≠ j)
    (hi : (blkAt (setAt (runAccesses config accs).cache k) i).valid = true)
    (hj : (blkAt (setAt (runAccesses config accs).cache k) j).valid = true) :
    (blkAt (setAt (runAccesses config accs).cache k) i).tag ≠
      (blkAt (setAt (runAccesses config accs).cache k) j).tag :=
  runAccesses_unique_aux config accs (initState config) (initState_unique config)
    k i j hij hi hj

/-- Witness for C9: after two loads with distinct tags into one 2-way set,
the two valid blocks indeed carry different tags. -/
theorem tag_uniqueness_witness :
    (blkAt (setAt (runAccesses cfg3 [Access.load 0x0, Access.load 0x4]).cache 0) 0).tag ≠
      (blkAt (setAt (runAccesses cfg3 [Access.load 0x0, Access.load 0x4]).cache 0) 1).tag :=
  tag_uniqueness cfg3 [Access.load 0x0, Access.load 0x4] 0 0 1
    (by decide) (by decide) (by decide)

/-- C10: a trace line the reader rejects — `parseTraceLine` returns `none`
exactly for the lines the source skips: an empty line, a line whose extraction
of operation character, address token or third integer field fails, an
operation other than `l`/`s`, or an address `stoul` cannot parse as
hexadecimal — changes nothing (neither statistics nor cache nor clock), and
processing continues with the remaining lines. -/
theorem malformed_line_skipped (config : CacheConfig) (pre post : List String)
    (line : String) (hbad : parseTraceLine line.data = none) :
    (∀ st, processLine config st line = st) ∧
    runTrace config (pre ++ line :: post) = runTrace config (pre ++ post) := by
  have hstep : ∀ st : SimState, processLine config st line = st := by
    intro st
    simp [processLine, hbad]
  refine ⟨hstep, ?_⟩
  simp [runTrace, List.foldl_append, List.foldl_cons, hstep]

/-- Witness for C10: an empty line, a bad operation, a missing third field,
a non-hexadecimal address, and a full-trace run skipping a bogus line. -/
theorem malformed_line_skipped_witness :
    processLine cfg10 st10 "" = st10 ∧
    processLine cfg10 st10 "x 0x10 1" = st10 ∧
    processLine cfg10 st10 "l 0x10" = st10 ∧
    processLine cfg10 st10 "l zz 1" = st10 ∧
    runTrace cfg10 ["l 0x0 1", "bogus", "l 0x0 1"]
      = runTrace cfg10 ["l 0x0 1", "l 0x0 1"] :=
  ⟨(malformed_line_skipped cfg10 [] [] "" (by decide)).1 st10,
   (malformed_line_skipped cfg10 [] [] "x 0x10 1" (by decide)).1 st10,
   (malformed_line_skipped cfg10 [] [] "l 0x10" (by decide)).1 st10,
   (malformed_line_skipped cfg10 [] [] "l zz 1" (by decide)).1 st10,
   (malformed_line_skipped cfg10 ["l 0x0 1"] ["l 0x0 1"] "bogus" (by decide)).2⟩

end CacheSim
